import Mathlib

/-!
Verification of the RSW time-lock puzzle implementation
(`crypto/rsw/rswtimelock.go`).

Shallow embedding conventions:
* Go `*big.Int` values are modelled as `ℕ`.  Every integer reaching the
  arithmetic in this package is non-negative (primes, bases, durations,
  masks), with one exception: the `Sub` results in `SetupTimelockPuzzle`
  and `SolveCkADD` may be negative, and Go's `(*big.Int).Bytes` then
  encodes the absolute value; those two spots are modelled via `ℤ` and
  `Int.natAbs`.
* Go's `Exp(x, y, m)` with `m = 0` performs no reduction, which matches
  the `ℕ` convention `x % 0 = x`, so `x ^ y % m` is a faithful model for
  every `m`.
* A Go `[]byte` is a `List ℕ` of values `< 256`.  `(*big.Int).SetBytes`
  is the big-endian fold `setBytes`; `(*big.Int).Bytes` is the minimal
  big-endian encoding `bigIntBytes` (no leading zero byte; `0 ↦ []`).
* A nilable `*big.Int` struct field is an `Option ℕ`; fallible Go
  functions return `Except String _` mirroring the source's `error`
  results and its (missing-field) checks exactly.
-/

/-- Decidable equality for `Except`, so that concrete runs of the
embedded fallible operations can be checked by `decide`. -/
instance {ε α : Type} [DecidableEq ε] [DecidableEq α] :
    DecidableEq (Except ε α) := fun x y =>
  match x, y with
  | .ok a, .ok b =>
    if h : a = b then .isTrue (by rw [h])
    else .isFalse (by intro hc; cases hc; exact h rfl)
  | .error a, .error b =>
    if h : a = b then .isTrue (by rw [h])
    else .isFalse (by intro hc; cases hc; exact h rfl)
  | .ok _, .error _ => .isFalse (by intro hc; cases hc)
  | .error _, .ok _ => .isFalse (by intro hc; cases hc)

/-- Models Go `(*big.Int).SetBytes`: interpret a byte slice as a
big-endian natural number. -/
def setBytes (l : List Nat) : Nat :=
  l.foldl (fun acc b => acc * 256 + b) 0

/-- Little-endian byte expansion with explicit fuel (structural
recursion so that concrete values compute by `rfl`/`decide`).  For
`n ≤ fuel` it yields the minimal little-endian base-256 digits of `n`. -/
def leBytesF : Nat → Nat → List Nat
  | _, 0 => []
  | 0, _ + 1 => []
  | f + 1, m + 1 => (m + 1) % 256 :: leBytesF f ((m + 1) / 256)

/-- Models Go `(*big.Int).Bytes`: minimal big-endian encoding of a
natural number; `0` encodes as the empty slice. -/
def bigIntBytes (n : Nat) : List Nat :=
  (leBytesF n n).reverse

/-- Value of a little-endian digit list in base 256. -/
def fromLE : List Nat → Nat
  | [] => 0
  | b :: bs => b + 256 * fromLE bs

/-- The generator state (`TimelockRSW` in the source).  `p`, `q`, `t`,
`a` are nilable `*big.Int` fields. -/
structure TimelockRSW where
  rsaKeyBits : Nat
  key : List Nat
  p : Option Nat
  q : Option Nat
  t : Option Nat
  a : Option Nat
deriving DecidableEq, Repr

/-- The public puzzle (`PuzzleRSW` in the source).  All four fields are
set by `SetupTimelockPuzzle`. -/
structure PuzzleRSW where
  n : Nat
  a : Nat
  t : Nat
  ck : Nat
deriving DecidableEq, Repr

/-- Models `(tl *TimelockRSW) n()`: `n = p*q`, failing when `p` or `q`
is nil. -/
def TimelockRSW.n (tl : TimelockRSW) : Except String Nat :=
  match tl.p, tl.q with
  | some p, some q => .ok (p * q)
  | _, _ => .error "Must set up p and q to get n"

/-- Models `(tl *TimelockRSW) ϕ()`: `ϕ(n) = (p-1)(q-1)`, failing when
`p` or `q` is nil. -/
def TimelockRSW.ϕ (tl : TimelockRSW) : Except String Nat :=
  match tl.p, tl.q with
  | some p, some q => .ok ((p - 1) * (q - 1))
  | _, _ => .error "Must set up p and q to get the ϕ"

/-- Models `(tl *TimelockRSW) e()`: `e = 2^t mod ϕ(n)`, failing when `t`
is nil, and propagating a failure of `ϕ()`. -/
def TimelockRSW.e (tl : TimelockRSW) : Except String Nat :=
  match tl.t with
  | none => .error "Must set up t in order to get e"
  | some t =>
    match tl.ϕ with
    | .error msg => .error ("Could not find ϕ: " ++ msg)
    | .ok ϕv => .ok (2 ^ t % ϕv)

/-- Models `(tl *TimelockRSW) b()`: `b = a^e mod n`, failing when `a` is
nil and propagating failures of `n()` and `e()`. -/
def TimelockRSW.b (tl : TimelockRSW) : Except String Nat :=
  match tl.a with
  | none => .error "Must set up a and n in order to get b"
  | some a =>
    match tl.n with
    | .error msg => .error ("Could not find n: " ++ msg)
    | .ok nv =>
      match tl.e with
      | .error msg => .error ("Could not find e: " ++ msg)
      | .ok ev => .ok (a ^ ev % nv)

/-- Models `(tl *TimelockRSW) ckXOR()`: `ck = b XOR SetBytes(key)`. -/
def TimelockRSW.ckXOR (tl : TimelockRSW) : Except String Nat :=
  match tl.b with
  | .error msg => .error ("Could not find b: " ++ msg)
  | .ok bv => .ok (bv ^^^ setBytes tl.key)

/-- Models `(tl *TimelockRSW) ckADD()`: `ck = b + SetBytes(key)`, plain
addition with no modular reduction. -/
def TimelockRSW.ckADD (tl : TimelockRSW) : Except String Nat :=
  match tl.b with
  | .error msg => .error ("Could not find b: " ++ msg)
  | .ok bv => .ok (bv + setBytes tl.key)

/-- Models `(tl *TimelockRSW) SetupTimelockPuzzle(t)`: stores `t`, builds
the public puzzle `(n, a, t, ckXOR)` and returns beside it the byte
encoding of `ck - b` (Go `Sub` then `Bytes`, hence the absolute value).
When the `.ok` branch is reached, `ckXOR` has succeeded, so `tl.a` is
`some`; `getD 0` only discharges the `Option` in that branch. -/
def TimelockRSW.SetupTimelockPuzzle (tl0 : TimelockRSW) (t : Nat) :
    Except String (PuzzleRSW × List Nat) :=
  let tl : TimelockRSW := { tl0 with t := some t }
  match tl.n with
  | .error msg => .error ("Could not find n: " ++ msg)
  | .ok nv =>
    match tl.ckXOR with
    | .error msg => .error ("Could not find ck: " ++ msg)
    | .ok ck =>
      match tl.b with
      | .error msg => .error ("Could not find b: " ++ msg)
      | .ok bv =>
        .ok ({ n := nv, a := tl.a.getD 0, t := t, ck := ck },
             bigIntBytes ((ck - bv : Int)).natAbs)

/-- Models `New(key, a, rsaKeyBits)`.  The outcome of
`rsa.GenerateMultiPrimeKey` (an external randomised source of primes) is
passed in as `genPrimes`: either a failure or the list of generated
primes.  The source checks only that generation succeeded and that
exactly two primes were returned. -/
def New (key : List Nat) (a : Nat) (rsaKeyBits : Nat)
    (genPrimes : Except String (List Nat)) : Except String TimelockRSW :=
  match genPrimes with
  | .error msg => .error ("Could not generate primes for RSA: " ++ msg)
  | .ok primes =>
    if primes.length ≠ 2 then
      .error "For some reason the RSA Privkey has != 2 primes, this should not be the case for RSW, we only need p and q"
    else
      .ok { rsaKeyBits := rsaKeyBits, key := key,
            p := primes[0]?, q := primes[1]?, t := none, a := some a }

/-- Models `(pz *PuzzleRSW) SolveCkADD()`: `Sub(ck, Exp(a, 2^t, n)).Bytes()`
with a `nil` error. -/
def PuzzleRSW.SolveCkADD (pz : PuzzleRSW) : Except String (List Nat) :=
  .ok (bigIntBytes ((pz.ck - (pz.a ^ 2 ^ pz.t % pz.n : Nat) : Int)).natAbs)

/-- Models `(pz *PuzzleRSW) SolveCkXOR()`: `Xor(ck, Exp(a, 2^t, n)).Bytes()`
with a `nil` error. -/
def PuzzleRSW.SolveCkXOR (pz : PuzzleRSW) : Except String (List Nat) :=
  .ok (bigIntBytes (pz.ck ^^^ pz.a ^ 2 ^ pz.t % pz.n))

/-- Models `(pz *PuzzleRSW) Solve()`: delegates to `SolveCkXOR`. -/
def PuzzleRSW.Solve (pz : PuzzleRSW) : Except String (List Nat) :=
  pz.SolveCkXOR

/-- The literal sequential-squaring process the spec demands of the
solver: value after `t` square-and-reduce steps from `s₀ = a mod n`,
paired with the number of multiply-mod operations performed. -/
def solveTrace (n a : Nat) : Nat → Nat × Nat
  | 0 => (a % n, 0)
  | t + 1 =>
    let r := solveTrace n a t
    (r.1 * r.1 % n, r.2 + 1)

/- ### Byte-codec lemmas -/

theorem setBytes_append (l : List Nat) (b : Nat) :
    setBytes (l ++ [b]) = setBytes l * 256 + b := by
  simp [setBytes, List.foldl_append]

theorem setBytes_reverse (l : List Nat) : setBytes l.reverse = fromLE l := by
  induction l with
  | nil => rfl
  | cons b bs ih =>
    rw [List.reverse_cons, setBytes_append, ih, fromLE]
    ring

theorem leBytesF_zero (f : Nat) : leBytesF f 0 = [] := by
  cases f <;> rfl

theorem leBytesF_succ (f v : Nat) (hv : 0 < v) (hf : 0 < f) :
    leBytesF f v = v % 256 :: leBytesF (f - 1) (v / 256) := by
  match f, v with
  | f' + 1, v' + 1 => rfl

theorem fromLE_leBytesF (f : Nat) : ∀ n, n ≤ f → fromLE (leBytesF f n) = n := by
  induction f with
  | zero =>
    intro n h
    have : n = 0 := Nat.le_zero.mp h
    subst this
    rfl
  | succ f ih =>
    intro n h
    match n with
    | 0 => rfl
    | m + 1 =>
      have hdiv : (m + 1) / 256 < m + 1 := Nat.div_lt_self (Nat.succ_pos m) (by norm_num)
      rw [leBytesF, fromLE, ih ((m + 1) / 256) (by omega)]
      omega

theorem setBytes_bigIntBytes (n : Nat) : setBytes (bigIntBytes n) = n := by
  rw [bigIntBytes, setBytes_reverse, fromLE_leBytesF n n le_rfl]

theorem fromLE_pos : ∀ l : List Nat, l ≠ [] → l.getLast? ≠ some 0 → 0 < fromLE l := by
  intro l
  induction l with
  | nil => intro h; exact absurd rfl h
  | cons b bs ih =>
    intro _ hlast
    match bs with
    | [] =>
      have hb : b ≠ 0 := by
        intro hb0
        exact hlast (by simp [hb0])
      simp [fromLE]
      omega
    | c :: cs =>
      have hq := ih (by simp) (by rwa [List.getLast?_cons_cons] at hlast)
      have hv : fromLE (b :: c :: cs) = b + 256 * fromLE (c :: cs) := rfl
      rw [hv]
      omega

theorem leBytesF_fromLE :
    ∀ (l : List Nat) (f : Nat), fromLE l ≤ f → (∀ b ∈ l, b < 256) →
      l.getLast? ≠ some 0 → leBytesF f (fromLE l) = l := by
  intro l
  induction l with
  | nil => intro f _ _ _; exact leBytesF_zero f
  | cons b bs ih =>
    intro f hf hlt hlast
    have hb : b < 256 := hlt b (by simp)
    match bs with
    | [] =>
      have hb0 : b ≠ 0 := by
        intro hb0
        exact hlast (by simp [hb0])
      have hv : fromLE [b] = b := by simp [fromLE]
      rw [hv] at hf ⊢
      rw [leBytesF_succ f b (by omega) (by omega)]
      rw [Nat.mod_eq_of_lt hb, Nat.div_eq_of_lt hb, leBytesF_zero]
    | c :: cs =>
      have hq : 0 < fromLE (c :: cs) :=
        fromLE_pos (c :: cs) (by simp) (by rwa [List.getLast?_cons_cons] at hlast)
      have hv : fromLE (b :: c :: cs) = b + 256 * fromLE (c :: cs) := rfl
      rw [hv] at hf ⊢
      have hmod : (b + 256 * fromLE (c :: cs)) % 256 = b := by
        rw [Nat.add_mul_mod_self_left, Nat.mod_eq_of_lt hb]
      have hdiv : (b + 256 * fromLE (c :: cs)) / 256 = fromLE (c :: cs) := by
        rw [Nat.add_mul_div_left b (fromLE (c :: cs)) (by norm_num),
          Nat.div_eq_of_lt hb, Nat.zero_add]
      rw [leBytesF_succ f (b + 256 * fromLE (c :: cs)) (by omega) (by omega),
        hmod, hdiv]
      congr 1
      exact ih (f - 1) (by omega) (fun x hx => hlt x (by simp [hx]))
        (by rwa [List.getLast?_cons_cons] at hlast)

theorem bigIntBytes_setBytes (l : List Nat) (hlt : ∀ x ∈ l, x < 256)
    (hh : l.head? ≠ some 0) : bigIntBytes (setBytes l) = l := by
  have hv : setBytes l = fromLE l.reverse := by
    have := setBytes_reverse l.reverse
    rwa [List.reverse_reverse] at this
  rw [bigIntBytes, hv]
  rw [leBytesF_fromLE l.reverse (fromLE l.reverse) le_rfl
    (fun x hx => hlt x (List.mem_reverse.mp hx))
    (by rwa [List.getLast?_reverse]), List.reverse_reverse]

theorem getLast?_leBytesF (f : Nat) :
    ∀ n, n ≤ f → (leBytesF f n).getLast? ≠ some 0 := by
  induction f with
  | zero =>
    intro n h
    have : n = 0 := Nat.le_zero.mp h
    subst this
    simp [leBytesF_zero]
  | succ f ih =>
    intro n h
    match n with
    | 0 => simp [leBytesF_zero]
    | m + 1 =>
      rw [leBytesF]
      rcases Nat.eq_zero_or_pos ((m + 1) / 256) with hd | hd
      · have hlt : m + 1 < 256 := by
          by_contra hge
          have := Nat.div_pos (by omega : 256 ≤ m + 1) (by norm_num)
          omega
        rw [hd, leBytesF_zero]
        simp [Nat.mod_eq_of_lt hlt]
      · have hdle : (m + 1) / 256 ≤ f := by
          have := Nat.div_lt_self (Nat.succ_pos m) (by norm_num : 1 < 256)
          omega
        have hne := ih ((m + 1) / 256) hdle
        have hcons : leBytesF f ((m + 1) / 256) ≠ [] := by
          intro hnil
          rw [leBytesF_succ f ((m + 1) / 256) hd (by omega)] at hnil
          exact List.cons_ne_nil _ _ hnil
        match hrest : leBytesF f ((m + 1) / 256) with
        | [] => exact absurd hrest hcons
        | c :: cs =>
          rw [List.getLast?_cons_cons]
          rw [hrest] at hne
          exact hne

theorem bigIntBytes_head (n : Nat) : (bigIntBytes n).head? ≠ some 0 := by
  rw [bigIntBytes, List.head?_reverse]
  exact getLast?_leBytesF n n le_rfl

theorem bigIntBytes_eq_nil_iff (n : Nat) : bigIntBytes n = [] ↔ n = 0 := by
  constructor
  · intro h
    have := setBytes_bigIntBytes n
    rw [h] at this
    simpa [setBytes] using this.symm
  · intro h
    subst h
    rfl

/- ### Euler-totient equivalence of the fast and slow paths -/

theorem totient_pq (p q : Nat) (hp : p.Prime) (hq : q.Prime) (hne : p ≠ q) :
    (p - 1) * (q - 1) = Nat.totient (p * q) := by
  rw [Nat.totient_mul ((Nat.coprime_primes hp hq).mpr hne),
    Nat.totient_prime hp, Nat.totient_prime hq]

theorem pow_mod_totient (a n k : Nat) (h : Nat.Coprime a n) :
    a ^ (k % Nat.totient n) % n = a ^ k % n := by
  conv_rhs => rw [← Nat.div_add_mod k (Nat.totient n)]
  rw [pow_add, pow_mul]
  have h1 : (a ^ Nat.totient n) ^ (k / Nat.totient n) ≡ 1 [MOD n] := by
    simpa using (Nat.ModEq.pow_totient h).pow (k / Nat.totient n)
  have h2 : (a ^ Nat.totient n) ^ (k / Nat.totient n) * a ^ (k % Nat.totient n) ≡
      1 * a ^ (k % Nat.totient n) [MOD n] := h1.mul_right _
  have h3 := h2.symm
  simpa [Nat.ModEq] using h3

theorem b_fast_eq_slow (p q a t : Nat) (hp : p.Prime) (hq : q.Prime)
    (hne : p ≠ q) (hcop : Nat.Coprime a (p * q)) :
    a ^ (2 ^ t % ((p - 1) * (q - 1))) % (p * q) = a ^ 2 ^ t % (p * q) := by
  rw [totient_pq p q hp hq hne, pow_mod_totient _ _ _ hcop]

theorem xor_xor_cancel (b k : Nat) : (b ^^^ k) ^^^ b = k := by
  rw [Nat.xor_comm b k, Nat.xor_assoc, Nat.xor_self, Nat.xor_zero]

theorem xor_eq_zero_iff (x y : Nat) : x ^^^ y = 0 ↔ x = y := by
  constructor
  · intro h
    have h2 := congrArg (fun z => z ^^^ y) h
    simpa [Nat.xor_assoc, Nat.xor_self, Nat.xor_zero, Nat.zero_xor] using h2
  · intro h
    rw [h, Nat.xor_self]

/-- Symbolic run of `SetupTimelockPuzzle` on a generator whose `p`, `q`
and `a` fields are set: it always succeeds, the issued puzzle carries
`n = p*q`, the base, the duration and the XOR mask, and the answer is
the byte encoding of `ck - b`. -/
theorem setup_ok (bits p q a t : Nat) (key : List Nat) (t0 : Option Nat) :
    TimelockRSW.SetupTimelockPuzzle ⟨bits, key, some p, some q, t0, some a⟩ t =
      .ok ({ n := p * q, a := a, t := t,
             ck := (a ^ (2 ^ t % ((p - 1) * (q - 1))) % (p * q)) ^^^ setBytes key },
           bigIntBytes ((((a ^ (2 ^ t % ((p - 1) * (q - 1))) % (p * q)) ^^^ setBytes key : Nat) -
             ((a ^ (2 ^ t % ((p - 1) * (q - 1))) % (p * q) : Nat)) : Int)).natAbs) := rfl

theorem solveTrace_fst (n a : Nat) : ∀ t, (solveTrace n a t).1 = a ^ 2 ^ t % n := by
  intro t
  induction t with
  | zero => simp [solveTrace]
  | succ t ih =>
    show (solveTrace n a t).1 * (solveTrace n a t).1 % n = _
    rw [ih]
    conv_rhs => rw [pow_succ, pow_mul, sq, Nat.mul_mod]

theorem solveTrace_snd (n a : Nat) : ∀ t, (solveTrace n a t).2 = t := by
  intro t
  induction t with
  | zero => rfl
  | succ t ih =>
    show (solveTrace n a t).2 + 1 = t + 1
    rw [ih]

/- ### Claim theorems -/

/-- C1 (counterexample).  The round-trip claim fails as stated: for the
distinct primes `p = 3`, `q = 5`, the nonzero base `a = 3` (a multiple
of `p`, so not coprime to `n = 15`) and `t = 3`, the reduced exponent is
`2^3 mod 8 = 0`, so the owner masks with `b = 3^0 mod 15 = 1` while the
solver unmasks with `3^(2^3) mod 15 = 6`: `Solve` returns the byte `2`,
not the original key byte `5`, although the key value `5 < 15`. -/
theorem solve_roundtrip_fails_for_noncoprime_base :
    TimelockRSW.SetupTimelockPuzzle ⟨2048, [5], some 3, some 5, none, some 3⟩ 3
      = .ok (⟨15, 3, 3, 4⟩, [3]) ∧
    PuzzleRSW.Solve ⟨15, 3, 3, 4⟩ = .ok [2] ∧
    (([2] == [5] : Bool) = false) ∧
    (decide (Nat.Prime 3 ∧ Nat.Prime 5 ∧ 0 < 3 ∧ setBytes [5] < 3 * 5) = true) := by
  refine ⟨by decide, by decide, by decide, by decide⟩

/-- C1 (amended).  For distinct primes `p`, `q`, a base `a` coprime to
`n = p*q`, any duration `t` (including `t = 0`), and a canonical key
byte slice (byte values `< 256`, no leading zero byte) whose integer
value is below `n`, `SetupTimelockPuzzle` succeeds and `Solve` on the
issued puzzle returns exactly the original key bytes. -/
theorem solve_roundtrips_key_of_coprime (bits p q a t : Nat) (key : List Nat)
    (hp : Nat.Prime p) (hq : Nat.Prime q) (hne : p ≠ q)
    (hcop : Nat.Coprime a (p * q))
    (hbyte : ∀ x ∈ key, x < 256) (hhead : key.head? ≠ some 0)
    (hlt : setBytes key < p * q) :
    ∃ pz ans,
      TimelockRSW.SetupTimelockPuzzle ⟨bits, key, some p, some q, none, some a⟩ t
        = .ok (pz, ans) ∧ pz.Solve = .ok key := by
  refine ⟨_, _, setup_ok bits p q a t key none, ?_⟩
  show Except.ok (bigIntBytes ((((a ^ (2 ^ t % ((p - 1) * (q - 1))) % (p * q)) ^^^ setBytes key)
    ^^^ a ^ 2 ^ t % (p * q)))) = _
  rw [b_fast_eq_slow p q a t hp hq hne hcop, xor_xor_cancel,
    bigIntBytes_setBytes key hbyte hhead]

/-- C1 (witness).  Instance of the amended round-trip at
`p = 61`, `q = 53`, `a = 2`, `t = 3`, `key = 0x05`. -/
theorem solve_roundtrips_key_of_coprime_witness :
    Nat.Prime 61 ∧ Nat.Prime 53 ∧ Nat.Coprime 2 (61 * 53) ∧
    (∃ pz ans,
      TimelockRSW.SetupTimelockPuzzle ⟨2048, [5], some 61, some 53, none, some 2⟩ 3
        = .ok (pz, ans) ∧ pz.Solve = .ok [5]) :=
  ⟨by decide, by decide, by decide,
    solve_roundtrips_key_of_coprime 2048 61 53 2 3 [5] (by decide) (by decide)
      (by decide) (by decide) (by decide) (by decide) (by decide)⟩

/-- C2 (code bug).  At `p = 61`, `q = 53`, `a = 2`, `t = 3` and the
two-byte key `0x012C` (value `300 < 3233`), the owner's fast path in
`SetupTimelockPuzzle` returns the answer bytes `[0xD4]` (the value
`|ck - b| = |44 - 256| = 212`, because the XOR mask is unmasked with
integer subtraction), while the solver's slow path returns the key
`[0x01, 0x2C]` itself: the two paths are not bit-identical. -/
theorem setup_answer_differs_from_solver :
    TimelockRSW.SetupTimelockPuzzle ⟨2048, [1, 44], some 61, some 53, none, some 2⟩ 3
      = .ok (⟨3233, 2, 3, 44⟩, [212]) ∧
    PuzzleRSW.Solve ⟨3233, 2, 3, 44⟩ = .ok [1, 44] ∧
    (([212] == [1, 44] : Bool) = false) ∧
    (decide (Nat.Prime 61 ∧ Nat.Prime 53 ∧ setBytes [1, 44] < 61 * 53) = true) := by
  refine ⟨by decide, by decide, by decide, by decide⟩

/-- C3 (counterexample).  The fast/slow equivalence fails as stated for
the distinct primes `p = 3`, `q = 5`, the base `a = 3` and `t = 3`: the
owner-path `b` is `3^(2^3 mod 8) mod 15 = 3^0 mod 15 = 1`, while the
solver-path value is `3^(2^3) mod 15 = 6`. -/
theorem owner_b_differs_from_solver_b :
    TimelockRSW.b ⟨2048, [], some 3, some 5, some 3, some 3⟩ = .ok 1 ∧
    ((3 : Nat) ^ 2 ^ 3 % 15 = 6) ∧
    ((1 == 6 : Bool) = false) ∧
    (decide (Nat.Prime 3 ∧ Nat.Prime 5) = true) := by
  refine ⟨by decide, by decide, by decide, by decide⟩

/-- C3 (amended).  For distinct primes `p`, `q` and a base `a` coprime
to `n = p*q`, the owner-path locked value `b = a^(2^t mod ϕ(n)) mod n`
computed by `b()` equals the solver-path value `a^(2^t) mod n`; in
particular for `t = 0` it equals `a mod n`. -/
theorem owner_b_matches_solver_b_of_coprime (bits p q a t : Nat) (key : List Nat)
    (hp : Nat.Prime p) (hq : Nat.Prime q) (hne : p ≠ q)
    (hcop : Nat.Coprime a (p * q)) :
    TimelockRSW.b ⟨bits, key, some p, some q, some t, some a⟩ = .ok (a ^ 2 ^ t % (p * q)) ∧
    TimelockRSW.b ⟨bits, key, some p, some q, some 0, some a⟩ = .ok (a % (p * q)) := by
  constructor
  · show Except.ok (a ^ (2 ^ t % ((p - 1) * (q - 1))) % (p * q)) = _
    rw [b_fast_eq_slow p q a t hp hq hne hcop]
  · show Except.ok (a ^ (2 ^ 0 % ((p - 1) * (q - 1))) % (p * q)) = _
    rw [b_fast_eq_slow p q a 0 hp hq hne hcop, pow_zero, pow_one]

/-- C3 (witness).  Instance of the amended fast/slow equivalence at
`p = 61`, `q = 53`, `a = 2`, `t = 3`. -/
theorem owner_b_matches_solver_b_of_coprime_witness :
    Nat.Prime 61 ∧ Nat.Prime 53 ∧ Nat.Coprime 2 (61 * 53) ∧
    (TimelockRSW.b ⟨2048, [5], some 61, some 53, some 3, some 2⟩
        = .ok (2 ^ 2 ^ 3 % (61 * 53)) ∧
      TimelockRSW.b ⟨2048, [5], some 61, some 53, some 0, some 2⟩
        = .ok (2 % (61 * 53))) :=
  ⟨by decide, by decide, by decide,
    owner_b_matches_solver_b_of_coprime 2048 61 53 2 3 [5] (by decide) (by decide)
      (by decide) (by decide)⟩

/-- C4 (counterexample).  In the spec's concrete vector the XOR mask is
miscalculated: with `b = 256` and `key = 5` the code's mask is
`256 XOR 5 = 261`, not `253` as the claim states. -/
theorem concrete_vector_mask_not_253 :
    TimelockRSW.ckXOR ⟨2048, [5], some 61, some 53, some 3, some 2⟩ = .ok 261 ∧
    ((261 == 253 : Bool) = false) := by
  refine ⟨by decide, by decide⟩

/-- C4 (amended).  For `p = 61`, `q = 53`, `a = 2`, `key = 0x05`,
`t = 3`: the totient derivation returns `ϕ(n) = 3120`, the reduced
exponent is `2^3 mod 3120 = 8`, the locked value is
`b = 2^8 mod 3233 = 256` (also reached by exactly 3 squarings of 2
mod 3233), the XOR-mode mask is `ck = 256 XOR 5 = 261`, and the solver
recovers `key = 261 XOR 256 = 5`. -/
theorem concrete_vector_holds_with_mask_261 :
    TimelockRSW.ϕ ⟨2048, [5], some 61, some 53, some 3, some 2⟩ = .ok 3120 ∧
    TimelockRSW.e ⟨2048, [5], some 61, some 53, some 3, some 2⟩ = .ok 8 ∧
    TimelockRSW.b ⟨2048, [5], some 61, some 53, some 3, some 2⟩ = .ok 256 ∧
    solveTrace 3233 2 3 = (256, 3) ∧
    TimelockRSW.ckXOR ⟨2048, [5], some 61, some 53, some 3, some 2⟩ = .ok 261 ∧
    PuzzleRSW.Solve ⟨3233, 2, 3, 261⟩ = .ok [5] := by
  refine ⟨by decide, by decide, by decide, by decide, by decide, by decide⟩

/-- C5 (code evaluation).  The value the solver computes coincides, for
every puzzle, with the result of the literal `t`-step sequential
square-and-reduce chain (`s₀ = a mod n`, `s_{i+1} = s_i² mod n`), whose
multiply-mod step count is exactly `t` and doubles when `t` doubles;
there is no totient-style reduction anywhere in the solver expression.
The divergence from the claim is purely operational: the source
implements this value as one `big.Int.Exp` call on the pre-computed
exponent `2^t` (fast exponentiation), not as a literal step-counted
loop, which the spec itself flags as a defect to be corrected. -/
theorem solve_value_is_t_step_chain (n a t ck : Nat) :
    (solveTrace n a t).1 = a ^ 2 ^ t % n ∧
    (solveTrace n a t).2 = t ∧
    (solveTrace n a (2 * t)).2 = 2 * (solveTrace n a t).2 ∧
    PuzzleRSW.Solve ⟨n, a, t, ck⟩ = .ok (bigIntBytes (ck ^^^ (solveTrace n a t).1)) := by
  refine ⟨solveTrace_fst n a t, solveTrace_snd n a t, ?_, ?_⟩
  · rw [solveTrace_snd, solveTrace_snd]
  · show Except.ok (bigIntBytes (ck ^^^ a ^ 2 ^ t % n)) = _
    rw [solveTrace_fst]

/-- C6 (counterexample).  `New` performs no `p == q` check: handed two
equal primes `7, 7` by the prime generator, it succeeds, and a puzzle is
then issued from the degenerate generator by `SetupTimelockPuzzle`. -/
theorem new_accepts_equal_primes_and_issues_puzzle :
    New [] 2 2048 (.ok [7, 7]) = .ok ⟨2048, [], some 7, some 7, none, some 2⟩ ∧
    TimelockRSW.SetupTimelockPuzzle ⟨2048, [], some 7, some 7, none, some 2⟩ 1
      = .ok (⟨49, 2, 1, 4⟩, []) := by
  refine ⟨by decide, by decide⟩

/-- C6 (amended).  `New` rejects only a prime-generation failure and a
returned prime count different from two; it contains no `p == q`
distinctness check, so with any pair of equal primes from the generator
it succeeds and `SetupTimelockPuzzle` then issues a puzzle. -/
theorem new_keeps_equal_primes (key : List Nat) (a bits p t : Nat) :
    ∃ tl pzans, New key a bits (.ok [p, p]) = .ok tl ∧
      tl.p = some p ∧ tl.q = some p ∧
      TimelockRSW.SetupTimelockPuzzle tl t = .ok pzans := by
  exact ⟨⟨bits, key, some p, some p, none, some a⟩, _, rfl, rfl, rfl,
    setup_ok bits p p a t key none⟩

/-- C7 (counterexample).  On the puzzle whose modulus and base are both
zero, `Solve` does not fail: it returns the empty answer with a `nil`
error. -/
theorem solve_succeeds_on_zero_puzzle :
    PuzzleRSW.Solve ⟨0, 0, 0, 0⟩ = .ok [] := by decide

/-- C7 (amended).  `Solve`/`SolveCkXOR` validate nothing and never
return an error: every puzzle, including one with a zero modulus or
base, yields a successful answer; with `n = 0` the exponentiation is
simply unreduced (Go's `Exp` convention for a zero modulus). -/
theorem solve_never_fails :
    (∀ pz : PuzzleRSW, ∃ bs, PuzzleRSW.Solve pz = .ok bs) ∧
    (∀ a t ck : Nat, PuzzleRSW.Solve ⟨0, a, t, ck⟩
      = .ok (bigIntBytes (ck ^^^ a ^ 2 ^ t))) := by
  constructor
  · intro pz
    exact ⟨_, rfl⟩
  · intro a t ck
    show Except.ok (bigIntBytes (ck ^^^ a ^ 2 ^ t % 0)) = _
    rw [Nat.mod_zero]

/-- C8 (counterexample).  `SetupTimelockPuzzle` accepts a key whose
integer value `5000` is greater than the modulus `n = 3233` and issues a
puzzle instead of rejecting the request. -/
theorem setup_accepts_oversized_key :
    TimelockRSW.SetupTimelockPuzzle ⟨2048, [19, 136], some 61, some 53, none, some 2⟩ 3
      = .ok (⟨3233, 2, 3, 4744⟩, [17, 136]) ∧
    setBytes [19, 136] = 5000 ∧
    (decide (3233 ≤ setBytes [19, 136]) = true) := by
  refine ⟨by decide, by decide, by decide⟩

/-- C8 (amended).  `SetupTimelockPuzzle` performs no range check on the
key: for every key byte slice, in particular every one whose integer
value is at least `n = p*q`, it succeeds and issues a puzzle (the XOR
mask is applied to the full key integer). -/
theorem setup_accepts_any_key (bits p q a t : Nat) (key : List Nat)
    (h : p * q ≤ setBytes key) :
    ∃ res, TimelockRSW.SetupTimelockPuzzle ⟨bits, key, some p, some q, none, some a⟩ t
      = .ok res :=
  ⟨_, setup_ok bits p q a t key none⟩

/-- C8 (witness).  Instance of the amended no-range-check statement at
`p = 61`, `q = 53`, `key = 0x1388` (value `5000 ≥ 3233`). -/
theorem setup_accepts_any_key_witness :
    61 * 53 ≤ setBytes [19, 136] ∧
    (∃ res, TimelockRSW.SetupTimelockPuzzle
      ⟨2048, [19, 136], some 61, some 53, none, some 2⟩ 3 = .ok res) :=
  ⟨by decide, setup_accepts_any_key 2048 61 53 2 3 [19, 136] (by decide)⟩

/-- C9 (counterexample).  ADD-mode loses the key for a valid-looking
parameter set whose base is not coprime to the modulus: with `p = 3`,
`q = 5`, `a = 3`, `t = 3`, `key = 0x05`, the owner masks with
`b = 1`, so `ck = 1 + 5 = 6`, but the solver subtracts
`3^(2^3) mod 15 = 6` and recovers `0`, not the key value `5`. -/
theorem add_mode_loses_key_for_noncoprime_base :
    TimelockRSW.ckADD ⟨2048, [5], some 3, some 5, some 3, some 3⟩ = .ok 6 ∧
    PuzzleRSW.SolveCkADD ⟨15, 3, 3, 6⟩ = .ok [] ∧
    setBytes [] = 0 ∧ setBytes [5] = 5 ∧
    ((0 == 5 : Bool) = false) ∧
    (decide (Nat.Prime 3 ∧ Nat.Prime 5) = true) := by
  refine ⟨by decide, by decide, by decide, by decide, by decide, by decide⟩

/-- C9 (amended).  For distinct primes `p`, `q` and a base `a` coprime
to `n = p*q`, ADD-mode masks with the plain integer sum `ck = b + key`
(no modular reduction, so `ck` may exceed `n`), and `SolveCkADD` on a
puzzle whose `ck` was produced by `ckADD` returns bytes decoding to
exactly the key's integer value, since `(b + key) - b = key`. -/
theorem add_mode_roundtrip_of_coprime (bits p q a t : Nat) (key : List Nat)
    (hp : Nat.Prime p) (hq : Nat.Prime q) (hne : p ≠ q)
    (hcop : Nat.Coprime a (p * q)) :
    TimelockRSW.ckADD ⟨bits, key, some p, some q, some t, some a⟩
      = .ok (a ^ 2 ^ t % (p * q) + setBytes key) ∧
    PuzzleRSW.SolveCkADD ⟨p * q, a, t, a ^ 2 ^ t % (p * q) + setBytes key⟩
      = .ok (bigIntBytes (setBytes key)) ∧
    setBytes (bigIntBytes (setBytes key)) = setBytes key := by
  refine ⟨?_, ?_, setBytes_bigIntBytes (setBytes key)⟩
  · show Except.ok (a ^ (2 ^ t % ((p - 1) * (q - 1))) % (p * q) + setBytes key) = _
    rw [b_fast_eq_slow p q a t hp hq hne hcop]
  · show Except.ok (bigIntBytes
      (((a ^ 2 ^ t % (p * q) + setBytes key : Nat) -
        (a ^ 2 ^ t % (p * q) : Nat) : Int)).natAbs) = _
    congr 1
    have : ((a ^ 2 ^ t % (p * q) + setBytes key : Nat) -
        (a ^ 2 ^ t % (p * q) : Nat) : Int) = (setBytes key : Int) := by
      push_cast
      ring
    rw [this, Int.natAbs_ofNat]

/-- C9 (witness).  Instance of the amended ADD-mode round trip at
`p = 61`, `q = 53`, `a = 2`, `t = 3`, `key = 0x05`. -/
theorem add_mode_roundtrip_of_coprime_witness :
    Nat.Prime 61 ∧ Nat.Prime 53 ∧ Nat.Coprime 2 (61 * 53) ∧
    (TimelockRSW.ckADD ⟨2048, [5], some 61, some 53, some 3, some 2⟩
        = .ok (2 ^ 2 ^ 3 % (61 * 53) + setBytes [5]) ∧
      PuzzleRSW.SolveCkADD ⟨61 * 53, 2, 3, 2 ^ 2 ^ 3 % (61 * 53) + setBytes [5]⟩
        = .ok (bigIntBytes (setBytes [5])) ∧
      setBytes (bigIntBytes (setBytes [5])) = setBytes [5]) :=
  ⟨by decide, by decide, by decide,
    add_mode_roundtrip_of_coprime 2048 61 53 2 3 [5] (by decide) (by decide)
      (by decide) (by decide)⟩

/-- C10 (counterexample).  A canonical key whose integer value equals
the unmasked value `b` IS returned bit-identically: with `p = 61`,
`q = 53`, `a = 2`, `t = 3`, the key `0x0100` (value `256 = b`) gives
`ck = 0`, and `Solve` returns exactly the key bytes `[0x01, 0x00]`. -/
theorem key_equal_to_b_roundtrips_identically :
    TimelockRSW.b ⟨2048, [1, 0], some 61, some 53, some 3, some 2⟩ = .ok 256 ∧
    setBytes [1, 0] = 256 ∧
    TimelockRSW.SetupTimelockPuzzle ⟨2048, [1, 0], some 61, some 53, none, some 2⟩ 3
      = .ok (⟨3233, 2, 3, 0⟩, [1, 0]) ∧
    PuzzleRSW.Solve ⟨3233, 2, 3, 0⟩ = .ok [1, 0] ∧
    (([1, 0] == [1, 0] : Bool) = true) := by
  refine ⟨by decide, by decide, by decide, by decide, by decide⟩

/-- C10 (amended).  `Solve`/`SolveCkXOR` return the minimal big-endian
encoding of the recovered integer (`big.Int.Bytes`): the output never
has a leading zero byte, it is empty exactly when the recovered value is
zero (i.e. when `ck` equals the unmasked value `a^(2^t) mod n`), and
consequently it is never bit-identical to a key byte slice that begins
with `0x00`.  (A key whose integer value equals the unmasked value
yields `ck = 0` and, when canonical, is returned bit-identically.) -/
theorem solve_returns_minimal_encoding (pz : PuzzleRSW) (key : List Nat)
    (hk : key.head? = some 0) :
    ∃ bs, PuzzleRSW.Solve pz = .ok bs ∧
      bs.head? ≠ some 0 ∧
      bs ≠ key ∧
      (bs = [] ↔ pz.ck = pz.a ^ 2 ^ pz.t % pz.n) := by
  refine ⟨bigIntBytes (pz.ck ^^^ pz.a ^ 2 ^ pz.t % pz.n), rfl, bigIntBytes_head _, ?_, ?_⟩
  · intro heq
    exact bigIntBytes_head _ (heq ▸ hk)
  · rw [bigIntBytes_eq_nil_iff, xor_eq_zero_iff]

/-- C10 (witness).  Instance of the amended minimal-encoding statement
at the concrete puzzle `(3233, 2, 3, 261)` and the leading-zero key
`[0x00, 0x05]`. -/
theorem solve_returns_minimal_encoding_witness :
    ([0, 5] : List Nat).head? = some 0 ∧
    (∃ bs, PuzzleRSW.Solve ⟨3233, 2, 3, 261⟩ = .ok bs ∧
      bs.head? ≠ some 0 ∧
      bs ≠ [0, 5] ∧
      (bs = [] ↔ (261 : Nat) = 2 ^ 2 ^ 3 % 3233)) :=
  ⟨by decide, solve_returns_minimal_encoding ⟨3233, 2, 3, 261⟩ [0, 5] (by decide)⟩
